import Mathlib

/-!
Verification of the registry core of `tools/f22_data_manager.py`.

The SQLite-backed `DataRegistry` is embedded shallowly: each table is a list
of rows in rowid (insertion) order, `SELECT ... WHERE x = ? ... fetchone()`
is a first-match lookup, `INSERT OR REPLACE` deletes the conflicting row and
appends the new one, and `DELETE ... WHERE` is a filter.  JSON round-trips
(`json.dumps` / `json.loads`) of the open metadata bags are modelled as the
identity, so a metadata bag is carried as an association list and other
opaque JSON payloads as strings.
-/

namespace F22

/-- `DataStatus` enum from the source. -/
inductive DataStatus
  | valid
  | stale
  | invalid
  | missing
  | processing
  deriving DecidableEq, Repr

/-- `DataCategory` enum from the source (`export` renamed `exportCat`:
`export` is a Lean keyword). -/
inductive DataCategory
  | source
  | derived
  | model
  | measurement
  | touchMask
  | exportCat
  | output
  | app
  | schema
  deriving DecidableEq, Repr

/-- One row of the `data_records` table. -/
structure RecordRow where
  uid : String
  path : String
  category : DataCategory
  status : DataStatus
  size : Nat
  hash_sha256 : String
  created_at : String
  modified_at : String
  version : Nat
  metadata : List (String × String)
  schema_uid : Option String
  deriving DecidableEq, Repr

/-- One row of the `lineage` table. -/
structure Edge where
  parent_uid : String
  child_uid : String
  relationship : String
  created_at : String
  deriving DecidableEq, Repr

/-- One row of the `audit_log` table (`actor` defaults to `"system"` and is
never varied by the code paths under study, so it is omitted). -/
structure AuditEntry where
  timestamp : String
  action : String
  target_uid : Option String
  details : String
  deriving DecidableEq, Repr

/-- The durable store: the three tables the claims are about. -/
structure RegistryState where
  records : List RecordRow
  lineage : List Edge
  audit : List AuditEntry
  deriving DecidableEq, Repr

/-- The in-memory `DataRecord` dataclass. -/
structure DataRecord where
  uid : String
  path : String
  category : DataCategory
  status : DataStatus
  size : Nat
  hash_sha256 : String
  created_at : String
  modified_at : String
  version : Nat
  parent_uids : List String
  child_uids : List String
  metadata : List (String × String)
  schema_uid : Option String
  deriving DecidableEq, Repr

/-- The row stored for a `DataRecord` by `register` (the `INSERT OR REPLACE`
column list: `parent_uids`/`child_uids` are not part of the row). -/
def recordRow (r : DataRecord) : RecordRow :=
  { uid := r.uid, path := r.path, category := r.category, status := r.status,
    size := r.size, hash_sha256 := r.hash_sha256, created_at := r.created_at,
    modified_at := r.modified_at, version := r.version, metadata := r.metadata,
    schema_uid := r.schema_uid }

/-- `SELECT * FROM data_records WHERE uid = ? ... fetchone()`. -/
def findRow : List RecordRow → String → Option RecordRow
  | [], _ => none
  | r :: rest, uid => if r.uid == uid then some r else findRow rest uid

/-- The record row visible for `uid` in state `s`. -/
def rowOf (s : RegistryState) (uid : String) : Option RecordRow :=
  findRow s.records uid

/-- `SELECT uid FROM data_records WHERE path = ? ... fetchone()`. -/
def findRowByPath : List RecordRow → String → Option RecordRow
  | [], _ => none
  | r :: rest, path => if r.path == path then some r else findRowByPath rest path

/-- `INSERT OR REPLACE INTO data_records`: the conflicting row (same
primary-key `uid`) is deleted and the new row inserted. -/
def insertOrReplace (recs : List RecordRow) (row : RecordRow) : List RecordRow :=
  recs.filter (fun r => !(r.uid == row.uid)) ++ [row]

/-- The single audit entry appended by `register` (details JSON is carried
as an opaque string). -/
def registerAudit (r : DataRecord) (now : String) : AuditEntry :=
  { timestamp := now, action := "register", target_uid := some r.uid,
    details := "path=" ++ r.path }

/-- `INSERT OR IGNORE INTO lineage (parent_uid, child_uid, created_at)`:
a duplicate `(parent, child)` primary key is ignored. -/
def insertEdgeOrIgnore (lin : List Edge) (p c now : String) : List Edge :=
  if lin.any (fun e => e.parent_uid == p && e.child_uid == c) then lin
  else lin ++ [{ parent_uid := p, child_uid := c, relationship := "derived_from",
                 created_at := now }]

/-- `DataRegistry.register`: replace the record row, delete every lineage
edge whose `child_uid` is the record's uid, re-insert one edge per entry of
`record.parent_uids`, commit, then append one audit entry. -/
def register (s : RegistryState) (r : DataRecord) (now : String) : RegistryState :=
  let recs := insertOrReplace s.records (recordRow r)
  let lin0 := s.lineage.filter (fun e => !(e.child_uid == r.uid))
  let lin := r.parent_uids.foldl (fun acc p => insertEdgeOrIgnore acc p r.uid now) lin0
  { records := recs, lineage := lin, audit := s.audit ++ [registerAudit r now] }

/-- Rebuilding a `DataRecord` from a stored row plus hydrated lineage
(the tail of `DataRegistry.get`). -/
def recordOfRow (row : RecordRow) (parents children : List String) : DataRecord :=
  { uid := row.uid, path := row.path, category := row.category, status := row.status,
    size := row.size, hash_sha256 := row.hash_sha256, created_at := row.created_at,
    modified_at := row.modified_at, version := row.version,
    parent_uids := parents, child_uids := children,
    metadata := row.metadata, schema_uid := row.schema_uid }

/-- `DataRegistry.get`: point lookup plus per-call hydration of
`parent_uids` / `child_uids` from the lineage table. -/
def get (s : RegistryState) (uid : String) : Option DataRecord :=
  match rowOf s uid with
  | none => none
  | some row =>
      let parents := (s.lineage.filter (fun e => e.child_uid == uid)).map
        (fun e => e.parent_uid)
      let children := (s.lineage.filter (fun e => e.parent_uid == uid)).map
        (fun e => e.child_uid)
      some (recordOfRow row parents children)

/-- `DataRegistry.get_by_path`: look the uid up by path, then `get`. -/
def get_by_path (s : RegistryState) (path : String) : Option DataRecord :=
  match findRowByPath s.records path with
  | none => none
  | some row => get s row.uid

/-- The single audit entry appended by `delete` (its `details` defaults to
the empty JSON object). -/
def deleteAudit (uid now : String) : AuditEntry :=
  { timestamp := now, action := "delete", target_uid := some uid,
    details := "\x7b\x7d" }

/-- `DataRegistry.delete`: drop every lineage edge mentioning `uid` as
parent or child, drop the record row, append one audit entry. -/
def delete (s : RegistryState) (uid : String) (now : String) : RegistryState :=
  { records := s.records.filter (fun r => !(r.uid == uid)),
    lineage := s.lineage.filter (fun e => !(e.parent_uid == uid || e.child_uid == uid)),
    audit := s.audit ++ [deleteAudit uid now] }

/-- `UPDATE data_records SET status = 'stale' WHERE uid = ?`. -/
def setStale (recs : List RecordRow) (uid : String) : List RecordRow :=
  recs.map (fun r => if r.uid == uid then { r with status := DataStatus.stale } else r)

/-- `DataRegistry._get_descendants`, exactly as written: for each child of
`uid`, append the child and recurse into it — with NO visited set.  `fuel`
bounds the recursion depth (Python's call stack / recursion limit); `none`
means the recursion did not complete within that depth at any point. -/
def getDescendants : Nat → List Edge → String → Option (List String)
  | 0, _, _ => none
  | fuel + 1, lin, uid =>
      let children := (lin.filter (fun e => e.parent_uid == uid)).map
        (fun e => e.child_uid)
      children.foldl
        (fun acc c =>
          match acc with
          | none => none
          | some ds =>
              match getDescendants fuel lin c with
              | none => none
              | some sub => some (ds ++ c :: sub))
        (some [])

/-- The single audit entry appended by `mark_stale` (its details record the
number of descendants touched). -/
def markStaleAudit (uid : String) (n : Nat) (now : String) : AuditEntry :=
  { timestamp := now, action := "mark_stale", target_uid := some uid,
    details := "descendants=" ++ toString n }

/-- `DataRegistry.mark_stale`: set `uid` stale, collect all descendants via
`_get_descendants`, set each stale, commit, append one audit entry.  `none`
models the recursive walk not completing (it raises `RecursionError` on a
lineage cycle, rolling the transaction back). -/
def mark_stale (fuel : Nat) (s : RegistryState) (uid : String) (now : String) :
    Option RegistryState :=
  match getDescendants fuel s.lineage uid with
  | none => none
  | some descs =>
      some { records := descs.foldl setStale (setStale s.records uid),
             lineage := s.lineage,
             audit := s.audit ++ [markStaleAudit uid descs.length now] }

/-- The Scanner's `for child_uid in existing.child_uids: mark_stale(child_uid)`
loop. -/
def foldMarkStale : Nat → RegistryState → List String → String → Option RegistryState
  | _, s, [], _ => some s
  | fuel, s, u :: rest, now =>
      match mark_stale fuel s u now with
      | none => none
      | some s' => foldMarkStale fuel s' rest now

/-- The set of uids set stale by `foldMarkStale`: each listed uid itself
followed by its `_get_descendants` list (specification-side bookkeeping used
to state theorems about the loop). -/
def staleClosure : Nat → List Edge → List String → Option (List String)
  | _, _, [] => some []
  | fuel, lin, u :: rest =>
      match getDescendants fuel lin u, staleClosure fuel lin rest with
      | some ds, some cl => some (u :: ds ++ cl)
      | _, _ => none

/-! ### Content store (`FileSystem`) -/

/-- A file as the hasher sees it: its byte length and the hex digest its
contents would hash to (the digest itself is opaque here). -/
structure FSFile where
  size : Nat
  digest : String
  deriving DecidableEq, Repr

/-- `FileSystem.hash_file`: returns `none` when the file exceeds
`hash_max_mb * 1024 * 1024` bytes, otherwise the content digest. -/
def hash_file (maxMb : Nat) (f : FSFile) : Option String :=
  if f.size > maxMb * 1024 * 1024 then none else some f.digest

/-! ### Scanner (`DataScanner.scan`) -/

/-- Python `existing.hash_sha256 != hash_val` compares a `str` with an
`Optional[str]`; this is the `==` side of that comparison (`str == None`
is `False`). -/
def strEqOptStr (s : String) (o : Option String) : Bool :=
  match o with
  | some t => s == t
  | none => false

/-- Python dict item assignment `m[k] = v` on an insertion-ordered dict. -/
def dictSet (m : List (String × String)) (k v : String) : List (String × String) :=
  if m.any (fun kv => kv.1 == k) then
    m.map (fun kv => if kv.1 == k then (k, v) else kv)
  else m ++ [(k, v)]

/-- `DataStatus.value`. -/
def statusValue : DataStatus → String
  | .valid => "valid"
  | .stale => "stale"
  | .invalid => "invalid"
  | .missing => "missing"
  | .processing => "processing"

/-- The `metadata["validation"]` payload written by the scanner, carried as
an opaque serialized string. -/
def validationBlob (vstatus : DataStatus) (vmsgs : List String) (now : String) : String :=
  "status=" ++ statusValue vstatus ++ ";messages=" ++ String.intercalate "," vmsgs
    ++ ";checked_at=" ++ now

/-- The `{added, updated, unchanged, removed, errors}` counters. -/
structure ScanCounts where
  added : Nat
  updated : Nat
  unchanged : Nat
  removed : Nat
  errors : Nat
  deriving DecidableEq, Repr

/-- The in-place mutation of `existing` in the changed branch of the scan
loop: refresh digest/size/`modified_at`, bump `version`, take the status
from validation, and record validation messages in the metadata bag. -/
def updatedRecord (existing : DataRecord) (stSize : Nat) (hashVal : Option String)
    (vstatus : DataStatus) (vmsgs : List String) (now : String) : DataRecord :=
  { existing with
    hash_sha256 := hashVal.getD ""
    size := stSize
    modified_at := now
    version := existing.version + 1
    status := vstatus
    metadata :=
      if vmsgs.isEmpty then existing.metadata
      else dictSet existing.metadata "validation" (validationBlob vstatus vmsgs now) }

/-- The fresh `DataRecord` built in the new-file branch of the scan loop. -/
def freshRecord (rel : String) (stSize : Nat) (hashVal : Option String)
    (category : DataCategory) (vstatus : DataStatus) (vmsgs : List String)
    (freshUid now : String) : DataRecord :=
  { uid := freshUid, path := rel, category := category, status := vstatus,
    size := stSize, hash_sha256 := hashVal.getD "", created_at := now,
    modified_at := now, version := 1, parent_uids := [], child_uids := [],
    metadata :=
      if vmsgs.isEmpty then []
      else dictSet [] "validation" (validationBlob vstatus vmsgs now),
    schema_uid := none }

/-- The body of the scanner's per-path loop.  Inputs that Python reads from
the filesystem are parameters: `stSize` (`path.stat().st_size`), `hashVal`
(`hash_file`), `category` (`categorize_file`), `vstatus`/`vmsgs`
(`_validate_json_file`), `freshUid` (`generate_uid`) and `now`.  `none`
models the body raising (which only happens through `mark_stale`'s
unbounded recursion). -/
def scan_path (fuel : Nat) (s : RegistryState) (rel : String) (stSize : Nat)
    (hashVal : Option String) (category : DataCategory) (vstatus : DataStatus)
    (vmsgs : List String) (freshUid now : String) (counts : ScanCounts) :
    Option (RegistryState × ScanCounts) :=
  match get_by_path s rel with
  | some existing =>
      if !(strEqOptStr existing.hash_sha256 hashVal) || !(existing.size == stSize) then
        let s1 := register s (updatedRecord existing stSize hashVal vstatus vmsgs now) now
        match foldMarkStale fuel s1 existing.child_uids now with
        | none => none
        | some s2 => some (s2, { counts with updated := counts.updated + 1 })
      else
        some (s, { counts with unchanged := counts.unchanged + 1 })
  | none =>
      some (register s (freshRecord rel stSize hashVal category vstatus vmsgs freshUid now) now,
            { counts with added := counts.added + 1 })

/-- Per-file observation fed to one iteration of the scan loop (everything
the loop body reads from disk for that path). -/
structure ScanInput where
  rel : String
  size : Nat
  hashVal : Option String
  category : DataCategory
  vstatus : DataStatus
  vmsgs : List String
  deriving DecidableEq, Repr

/-- The scanner's per-path loop over the walked files.  `fresh i` supplies
the uid `generate_uid` would mint for the i-th file. -/
def scanLoop : Nat → RegistryState → List ScanInput → (Nat → String) → Nat → String →
    ScanCounts → Option (RegistryState × ScanCounts)
  | _, s, [], _, _, _, counts => some (s, counts)
  | fuel, s, f :: rest, fresh, i, now, counts =>
      match scan_path fuel s f.rel f.size f.hashVal f.category f.vstatus f.vmsgs
          (fresh i) now counts with
      | none => none
      | some (s', counts') => scanLoop fuel s' rest fresh (i + 1) now counts'

/-- The scanner's removal phase: iterate the `query(limit=100000)` snapshot
and delete every record whose path was not observed in this pass. -/
def removePass : RegistryState → ScanCounts → List RecordRow → List String → String →
    RegistryState × ScanCounts
  | s, counts, [], _, _ => (s, counts)
  | s, counts, row :: rest, seen, now =>
      if seen.contains row.path then removePass s counts rest seen now
      else removePass (delete s row.uid now)
        { counts with removed := counts.removed + 1 } rest seen now

/-- `DataScanner.scan`: process every walked file, then the removal phase
over the `query(limit=100000)` snapshot.  (In Python a per-file exception is
caught and counted; the only failing path in this model is `mark_stale`'s
unbounded recursion, surfaced as `none` since the partially-committed state
it leaves is what claim C1 is about.) -/
def scan (fuel : Nat) (s : RegistryState) (files : List ScanInput)
    (fresh : Nat → String) (now : String) : Option (RegistryState × ScanCounts) :=
  let seen := files.map (fun f => f.rel)
  match scanLoop fuel s files fresh 0 now
      { added := 0, updated := 0, unchanged := 0, removed := 0, errors := 0 } with
  | none => none
  | some (s1, counts1) => some (removePass s1 counts1 (s1.records.take 100000) seen now)

/-! ### Touch zones -/

/-- One row of the `touch_zones` table.  The numeric/geometry payloads
(vertices, centroid, area) are never computed with by the color lookup, so
they are carried as their serialized JSON text. -/
structure TouchZone where
  uid : String
  component_uid : String
  label : String
  color_hex : String
  vertices : String
  center_x : String
  center_y : String
  area : String
  metadata : List (String × String)
  deriving DecidableEq, Repr

/-- Key normalization `color_hex.upper().replace("#", "")` at the
character-list level (ASCII upper-casing; `replace` removes every `'#'`). -/
def normColorChars (l : List Char) : List Char :=
  (l.map Char.toUpper).filter (fun c => !(c == '#'))

/-- Python-side key normalization `color_hex.upper().replace("#", "")`. -/
def normColorPy (s : String) : String :=
  String.mk (normColorChars s.data)

/-- SQL-side normalization `UPPER(REPLACE(color_hex, '#', ''))` (replace
first, then upper-case; `Char.toUpper '#' = '#'` makes the two orders
agree). -/
def normColorSql (s : String) : String :=
  String.mk ((s.data.filter (fun c => !(c == '#'))).map Char.toUpper)

/-- `DataRegistry.get_touch_zone_by_color`: normalize the key, then return
the first stored zone whose normalized `color_hex` matches. -/
def get_touch_zone_by_color (zones : List TouchZone) (key : String) : Option TouchZone :=
  let k := normColorPy key
  zones.find? (fun z => normColorSql z.color_hex == k)

/-- Dropping one leading `'#'` from a character list (spec-side reading of
"a leading '#' prefix", used only to state claim C8's key relation). -/
def stripLeadingHashChars (l : List Char) : List Char :=
  match l with
  | c :: rest => if c == '#' then rest else c :: rest
  | [] => []

/-- Dropping one leading `'#'` from a string. -/
def stripLeadingHash (s : String) : String :=
  String.mk (stripLeadingHashChars s.data)

/-- ASCII upper-casing of a whole string (used only to state claim C8's
"equal up to ASCII letter case" relation). -/
def asciiUpper (s : String) : String :=
  String.mk (s.data.map Char.toUpper)

/-! ### Supervised listener (`F22DataManager`)

The supervisor loop, the control operations, and a worker crash are modelled
as one interleaved transition system.  A listener worker thread is named by
a generation number; `alive` lists the generations still running.  Each
supervisor program point corresponds to one statement span of
`supervisor_loop`. -/

/-- Program points of `supervisor_loop` (top of the `while`, the two
`_server_enabled` checks, the `t.join`, the two `_stop_event` re-checks, the
`is_alive` check, the thread-swap check, the backoff sleep, and the
cleanup-plus-`_start_server` restart block). -/
inductive SupPC
  | loopTop
  | enabledCheck
  | threadCheck
  | joinWait
  | postJoin
  | aliveCheck
  | enabledCheck2
  | swapCheck
  | backoffSleep
  | postSleep
  | restartBind
  | exited
  deriving DecidableEq, Repr

/-- Shared manager state: `_server_enabled`, `_stop_event`, whether
`self.server` is bound (non-None), which worker generation `server_thread`
names, which generations are alive, and the next fresh generation. -/
structure SrvShared where
  enabled : Bool
  stopEvent : Bool
  serverBound : Bool
  serverThread : Option Nat
  alive : List Nat
  nextGen : Nat
  deriving DecidableEq, Repr

/-- Supervisor configuration: shared state plus the loop's local variable
`t` and `restart_delay`. -/
structure SupCfg where
  shared : SrvShared
  pc : SupPC
  tLocal : Option Nat
  restartDelay : Nat
  deriving DecidableEq, Repr

/-- `t.is_alive()`. -/
def threadAlive (sh : SrvShared) (t : Option Nat) : Bool :=
  match t with
  | none => false
  | some g => sh.alive.contains g

/-- One small step of `supervisor_loop` (the successful-restart path; a
failed rebind would double `restartDelay` instead, which no claim here
exercises). -/
def supStep (c : SupCfg) : SupCfg :=
  match c.pc with
  | .loopTop =>
      if c.shared.stopEvent then { c with pc := .exited }
      else { c with pc := .enabledCheck }
  | .enabledCheck =>
      if c.shared.enabled then { c with pc := .threadCheck }
      else { c with pc := .loopTop }
  | .threadCheck =>
      match c.shared.serverThread with
      | none => { c with tLocal := none, pc := .loopTop }
      | some g => { c with tLocal := some g, pc := .joinWait }
  | .joinWait => { c with pc := .postJoin }
  | .postJoin =>
      if c.shared.stopEvent then { c with pc := .exited }
      else { c with pc := .aliveCheck }
  | .aliveCheck =>
      if threadAlive c.shared c.tLocal then { c with pc := .loopTop }
      else { c with pc := .enabledCheck2 }
  | .enabledCheck2 =>
      if c.shared.enabled then { c with pc := .swapCheck }
      else { c with pc := .loopTop }
  | .swapCheck =>
      if !(c.shared.serverThread == c.tLocal)
          && threadAlive c.shared c.shared.serverThread then
        { c with restartDelay := 1, pc := .loopTop }
      else { c with pc := .backoffSleep }
  | .backoffSleep => { c with pc := .postSleep }
  | .postSleep =>
      if c.shared.stopEvent then { c with pc := .exited }
      else { c with pc := .restartBind }
  | .restartBind =>
      let sh := c.shared
      let g := sh.nextGen
      { c with
        shared := { sh with
          serverBound := true
          serverThread := some g
          alive := g :: sh.alive
          nextGen := g + 1 }
        restartDelay := 1
        pc := .loopTop }
  | .exited => c

/-- The active listener worker dying (crash): its generation stops being
alive; `self.server` and `self.server_thread` keep pointing at the corpse. -/
def workerDies (sh : SrvShared) : SrvShared :=
  match sh.serverThread with
  | some g => { sh with alive := sh.alive.filter (fun x => !(x == g)) }
  | none => sh

/-- `F22DataManager.stop_http_server`: clear `_server_enabled`, shut the
bound socket down and set `self.server = None` (`server_thread` is left
as-is). -/
def stop_http_server (sh : SrvShared) : SrvShared :=
  { sh with enabled := false, serverBound := false }

/-- `F22DataManager.start_http_server`: set `_server_enabled`; if the worker
thread is already alive do nothing more, else bind and start a fresh one. -/
def start_http_server (sh : SrvShared) : SrvShared :=
  let sh1 : SrvShared := { sh with enabled := true }
  if threadAlive sh1 sh1.serverThread then sh1
  else { sh1 with
    serverBound := true
    serverThread := some sh1.nextGen
    alive := sh1.nextGen :: sh1.alive
    nextGen := sh1.nextGen + 1 }

/-- `F22DataManager.restart_http_server`: re-enable and tear the bound
socket down; the supervisor is what rebinds. -/
def restart_http_server (sh : SrvShared) : SrvShared :=
  { sh with enabled := true, serverBound := false }

/-- Interleaving labels: one supervisor step, a worker crash, or one of the
three control operations. -/
inductive SrvLabel
  | supervisor
  | workerDies
  | stopServer
  | startServer
  | restartServer
  deriving DecidableEq, Repr

/-- Apply one labelled event. -/
def srvStep (c : SupCfg) : SrvLabel → SupCfg
  | .supervisor => supStep c
  | .workerDies => { c with shared := workerDies c.shared }
  | .stopServer => { c with shared := stop_http_server c.shared }
  | .startServer => { c with shared := start_http_server c.shared }
  | .restartServer => { c with shared := restart_http_server c.shared }

/-- Run a finite interleaving. -/
def srvRun (c : SupCfg) : List SrvLabel → SupCfg
  | [] => c
  | l :: rest => srvRun (srvStep c l) rest

/-! ### `register` as a transaction script (for claim C10)

`DataRegistry.register` runs all its statements inside one
`with sqlite3.connect(...)` block whose exit commits on success and rolls
back on an exception, with `conn.commit()` as the last statement.  The
script below lists those statements; `runTxn` gives them SQLite's
transactional semantics: statements mutate a pending copy, `commit`
publishes it, and a raising statement aborts with the committed state as
the visible database. -/

/-- The statements `register` executes inside its transaction. -/
inductive RegStmt
  | replaceRow (row : RecordRow)
  | deleteParentEdges (uid : String)
  | insertEdge (p c now : String)
  | commit
  deriving DecidableEq, Repr

/-- Effect of one non-`commit` statement on the pending database. -/
def applyStmt (db : RegistryState) : RegStmt → RegistryState
  | .replaceRow row => { db with records := insertOrReplace db.records row }
  | .deleteParentEdges uid =>
      { db with lineage := db.lineage.filter (fun e => !(e.child_uid == uid)) }
  | .insertEdge p c now => { db with lineage := insertEdgeOrIgnore db.lineage p c now }
  | .commit => db

/-- Run a statement list transactionally.  `failsAt i = true` makes the
i-th statement raise a storage error; the `.error` payload is the database
the caller observes after the rollback. -/
def runTxn (committed pending : RegistryState) (failsAt : Nat → Bool) (i : Nat) :
    List RegStmt → Except RegistryState (RegistryState × RegistryState)
  | [] => .ok (committed, pending)
  | stmt :: rest =>
      if failsAt i then .error committed
      else
        match stmt with
        | .commit => runTxn pending pending failsAt (i + 1) rest
        | _ => runTxn committed (applyStmt pending stmt) failsAt (i + 1) rest

/-- The statement list of `register`'s transaction, in source order. -/
def register_script (r : DataRecord) (now : String) : List RegStmt :=
  RegStmt.replaceRow (recordRow r)
    :: RegStmt.deleteParentEdges r.uid
    :: (r.parent_uids.map (fun p => RegStmt.insertEdge p r.uid now)
        ++ [RegStmt.commit])

/-- `register` with failure injection: run the transaction; on success
append the audit entry (written by `_audit` on a separate connection after
the `with` block). -/
def register_run (s : RegistryState) (r : DataRecord) (now : String)
    (failsAt : Nat → Bool) : Except RegistryState RegistryState :=
  match runTxn s s failsAt 0 (register_script r now) with
  | .error db => .error db
  | .ok (committed, _) =>
      .ok { committed with audit := committed.audit ++ [registerAudit r now] }

/-- Concrete state for the C3 witness. -/
def w3s : RegistryState := { records := [], lineage := [], audit := [] }

/-- Concrete record for the C3 witness (registered with one parent so that
the `get` round-trip returns it unchanged). -/
def w3r : DataRecord :=
  { uid := "r1", path := "data/sources/a.json", category := .source,
    status := .valid, size := 3, hash_sha256 := "h", created_at := "t0",
    modified_at := "t0", version := 5, parent_uids := ["p1"], child_uids := [],
    metadata := [], schema_uid := none }

/-- Concrete state for the C5 witness: two records, a two-cycle between them
plus an unrelated edge. -/
def w5s : RegistryState :=
  { records :=
      [ { uid := "a", path := "a.json", category := .source, status := .valid,
          size := 1, hash_sha256 := "ha", created_at := "t0", modified_at := "t0",
          version := 1, metadata := [], schema_uid := none },
        { uid := "b", path := "b.json", category := .derived, status := .valid,
          size := 2, hash_sha256 := "hb", created_at := "t0", modified_at := "t0",
          version := 1, metadata := [], schema_uid := none } ],
    lineage :=
      [ { parent_uid := "a", child_uid := "b", relationship := "derived_from",
          created_at := "t0" },
        { parent_uid := "b", child_uid := "a", relationship := "derived_from",
          created_at := "t0" },
        { parent_uid := "x", child_uid := "y", relationship := "derived_from",
          created_at := "t0" } ],
    audit := [] }

/-- A cyclic lineage `u → c1 → u`, as the data model permits at write time
(`register` performs no acyclicity check). -/
def cycEdges : List Edge :=
  [ { parent_uid := "u", child_uid := "c1", relationship := "derived_from",
      created_at := "t0" },
    { parent_uid := "c1", child_uid := "u", relationship := "derived_from",
      created_at := "t0" } ]

/-- A registry holding two records whose lineage forms the cycle
`u → c1 → u` (so `u` indirectly reaches itself). -/
def cycState : RegistryState :=
  { records :=
      [ { uid := "u", path := "u.json", category := .source, status := .valid,
          size := 1, hash_sha256 := "hu", created_at := "t0", modified_at := "t0",
          version := 1, metadata := [], schema_uid := none },
        { uid := "c1", path := "c1.json", category := .derived, status := .valid,
          size := 1, hash_sha256 := "hc", created_at := "t0", modified_at := "t0",
          version := 1, metadata := [], schema_uid := none } ],
    lineage := cycEdges,
    audit := [] }

/-- Initial listener state for claim C4: worker generation 0 bound and
serving, supervisor at the top of its loop, listener enabled. -/
def srvInit : SupCfg :=
  { shared := { enabled := true, stopEvent := false, serverBound := true,
                serverThread := some 0, alive := [0], nextGen := 1 },
    pc := .loopTop, tLocal := none, restartDelay := 1 }

/-- The C4 interleaving: the worker dies; the supervisor walks from the top
of its loop through the join, the liveness check, the `_server_enabled`
check and the thread-swap check into the backoff sleep; `stop_http_server`
is called DURING that sleep; the supervisor then wakes, re-checks only
`_stop_event` (line 1646 of the source) — not `_server_enabled` — and
rebinds a fresh listener. -/
def c4Trace : List SrvLabel :=
  [ .workerDies,
    .supervisor, .supervisor, .supervisor, .supervisor, .supervisor,
    .supervisor, .supervisor, .supervisor,
    .stopServer,
    .supervisor, .supervisor, .supervisor ]

/-- The pending database after folding the edge inserts of `ps`. -/
def edgesFolded (pending : RegistryState) (ps : List String) (uidr now : String) :
    RegistryState :=
  { pending with
    lineage := ps.foldl (fun acc p => insertEdgeOrIgnore acc p uidr now) pending.lineage }

/-- Concrete record for the C10 witness: two parents, so the failing
statement (index 3) is the second lineage-edge insert. -/
def w10r : DataRecord :=
  { uid := "r1", path := "data/exports/out.json", category := .derived,
    status := .valid, size := 9, hash_sha256 := "h9", created_at := "t0",
    modified_at := "t0", version := 2, parent_uids := ["p1", "p2"],
    child_uids := [], metadata := [], schema_uid := none }

/-- Failure injection for the C10 witness: the second edge insert raises. -/
def w10f : Nat → Bool := fun i => i == 3

/-- C2 witness fixture: parent record `p` (path `f.txt`) with child `c`. -/
def w2s : RegistryState :=
  { records :=
      [ { uid := "p", path := "f.txt", category := .source, status := .valid,
          size := 1, hash_sha256 := "h0", created_at := "t0", modified_at := "t0",
          version := 1, metadata := [], schema_uid := none },
        { uid := "c", path := "g.txt", category := .derived, status := .valid,
          size := 2, hash_sha256 := "hc", created_at := "t0", modified_at := "t0",
          version := 1, metadata := [], schema_uid := none } ],
    lineage :=
      [ { parent_uid := "p", child_uid := "c", relationship := "derived_from",
          created_at := "t0" } ],
    audit := [] }

/-- The record `get_by_path w2s "f.txt"` returns. -/
def w2ex : DataRecord :=
  { uid := "p", path := "f.txt", category := .source, status := .valid,
    size := 1, hash_sha256 := "h0", created_at := "t0", modified_at := "t0",
    version := 1, parent_uids := [], child_uids := ["c"], metadata := [],
    schema_uid := none }

/-- The state after scanning `f.txt` with a changed digest `h1`. -/
def w2sAfter : RegistryState :=
  { records :=
      [ { uid := "c", path := "g.txt", category := .derived, status := .stale,
          size := 2, hash_sha256 := "hc", created_at := "t0", modified_at := "t0",
          version := 1, metadata := [], schema_uid := none },
        { uid := "p", path := "f.txt", category := .source, status := .valid,
          size := 1, hash_sha256 := "h1", created_at := "t0", modified_at := "t1",
          version := 2, metadata := [], schema_uid := none } ],
    lineage :=
      [ { parent_uid := "p", child_uid := "c", relationship := "derived_from",
          created_at := "t0" } ],
    audit :=
      [ { timestamp := "t1", action := "register", target_uid := some "p",
          details := "path=f.txt" },
        { timestamp := "t1", action := "mark_stale", target_uid := some "c",
          details := "descendants=0" } ] }

/-- All-zero scan counters. -/
def zeroCounts : ScanCounts :=
  { added := 0, updated := 0, unchanged := 0, removed := 0, errors := 0 }

/-- One `updated` counted. -/
def oneUpdated : ScanCounts :=
  { added := 0, updated := 1, unchanged := 0, removed := 0, errors := 0 }

/-- C9 witness fixture: the oversized file itself (5 bytes against a 0 MB
hash cap). -/
def w9f : FSFile := { size := 5, digest := "d" }

/-- C9 witness fixture: oversized file `big.bin` already tracked with the
empty-string digest, with one child `bc`. -/
def w9s : RegistryState :=
  { records :=
      [ { uid := "b", path := "big.bin", category := .source, status := .valid,
          size := 5, hash_sha256 := "", created_at := "t0", modified_at := "t0",
          version := 3, metadata := [], schema_uid := none },
        { uid := "bc", path := "c.txt", category := .derived, status := .valid,
          size := 2, hash_sha256 := "hc", created_at := "t0", modified_at := "t0",
          version := 1, metadata := [], schema_uid := none } ],
    lineage :=
      [ { parent_uid := "b", child_uid := "bc", relationship := "derived_from",
          created_at := "t0" } ],
    audit := [] }

/-- The record `get_by_path w9s "big.bin"` returns. -/
def w9ex : DataRecord :=
  { uid := "b", path := "big.bin", category := .source, status := .valid,
    size := 5, hash_sha256 := "", created_at := "t0", modified_at := "t0",
    version := 3, parent_uids := [], child_uids := ["bc"], metadata := [],
    schema_uid := none }

/-- The state after re-scanning the unchanged oversized file. -/
def w9sAfter : RegistryState :=
  { records :=
      [ { uid := "bc", path := "c.txt", category := .derived, status := .stale,
          size := 2, hash_sha256 := "hc", created_at := "t0", modified_at := "t0",
          version := 1, metadata := [], schema_uid := none },
        { uid := "b", path := "big.bin", category := .source, status := .valid,
          size := 5, hash_sha256 := "", created_at := "t0", modified_at := "t1",
          version := 4, metadata := [], schema_uid := none } ],
    lineage :=
      [ { parent_uid := "b", child_uid := "bc", relationship := "derived_from",
          created_at := "t0" } ],
    audit :=
      [ { timestamp := "t1", action := "register", target_uid := some "b",
          details := "path=big.bin" },
        { timestamp := "t1", action := "mark_stale", target_uid := some "bc",
          details := "descendants=0" } ] }

/-- A stored zone whose color key mixes case, for the C8 witness. -/
def w8zones : List TouchZone :=
  [ { uid := "z1", component_uid := "comp1", label := "canopy",
      color_hex := "AaBbCc", vertices := "[[0,0],[1,0],[1,1]]",
      center_x := "0.5", center_y := "0.5", area := "0.5", metadata := [] } ]

/-- The i-th record of the oversize registry used against claim C7: uid
`'u'` repeated i times and path `'p'` repeated i times, so that all 100001
uids are pairwise distinct (provable from the replicate lengths without
evaluating the list). -/
def bigRow (i : Nat) : RecordRow :=
  { uid := String.mk (List.replicate i 'u'), path := String.mk (List.replicate i 'p'),
    category := .source, status := .valid, size := 0, hash_sha256 := "",
    created_at := "t0", modified_at := "t0", version := 1, metadata := [],
    schema_uid := none }

/-- A registry tracking 100001 records — one more than the removal phase's
`query(limit=100000)` snapshot can see. -/
def bigState : RegistryState :=
  { records := (List.range 100001).map bigRow, lineage := [], audit := [] }

/-- The result of the first empty-root scan pass over `bigState`. -/
def c7bigFirst : RegistryState × ScanCounts :=
  removePass bigState zeroCounts (bigState.records.take 100000) [] "t1"

/-! ## Helper lemmas -/

@[simp]

lemma recordRow_uid (r : DataRecord) : (recordRow r).uid = r.uid := rfl

@[simp]

lemma recordRow_version (r : DataRecord) : (recordRow r).version = r.version := rfl

@[simp]

lemma recordRow_status (r : DataRecord) : (recordRow r).status = r.status := rfl

@[simp]

lemma recordRow_size (r : DataRecord) : (recordRow r).size = r.size := rfl

@[simp]

lemma recordRow_hash (r : DataRecord) : (recordRow r).hash_sha256 = r.hash_sha256 := rfl

@[simp]

lemma recordRow_recordOfRow (row : RecordRow) (ps cs : List String) :
    recordRow (recordOfRow row ps cs) = row := rfl

@[simp]

lemma recordOfRow_uid (row : RecordRow) (ps cs : List String) :
    (recordOfRow row ps cs).uid = row.uid := rfl

lemma findRow_append_none (l₁ l₂ : List RecordRow) (u : String)
    (h : findRow l₁ u = none) : findRow (l₁ ++ l₂) u = findRow l₂ u := by
  induction l₁ with
  | nil => rfl
  | cons r t ih =>
      simp only [findRow, List.cons_append] at h ⊢
      by_cases hr : (r.uid == u) = true
      · rw [if_pos hr] at h; cases h
      · rw [if_neg hr] at h ⊢; exact ih h

lemma findRow_append_general (l₁ l₂ : List RecordRow) (u : String) :
    findRow (l₁ ++ l₂) u = (findRow l₁ u).orElse (fun _ => findRow l₂ u) := by
  induction l₁ with
  | nil => rfl
  | cons r t ih =>
      cases hr : (r.uid == u) with
      | true => simp [findRow, hr]
      | false => simp [findRow, hr, ih]

lemma findRow_filter_ne (recs : List RecordRow) (u : String) :
    findRow (recs.filter (fun r => !(r.uid == u))) u = none := by
  induction recs with
  | nil => rfl
  | cons r t ih =>
      cases hr : (r.uid == u) with
      | true => simp [List.filter_cons, hr, ih]
      | false => simp [List.filter_cons, hr, findRow, ih]

lemma findRow_filter_other (recs : List RecordRow) (u v : String) (hv : v ≠ u) :
    findRow (recs.filter (fun r => !(r.uid == u))) v = findRow recs v := by
  induction recs with
  | nil => rfl
  | cons r t ih =>
      cases hru : (r.uid == u) with
      | true =>
          have hru' : r.uid = u := by simpa using hru
          have hrv : (r.uid == v) = false := by
            rw [hru', beq_eq_false_iff_ne]
            exact fun h => hv h.symm
          simp [List.filter_cons, hru, findRow, hrv, ih]
      | false => simp [List.filter_cons, hru, findRow, ih]

lemma rowOf_register_self (s : RegistryState) (r : DataRecord) (now : String) :
    rowOf (register s r now) r.uid = some (recordRow r) := by
  simp only [register, rowOf, insertOrReplace, recordRow_uid]
  rw [findRow_append_none _ _ _ (findRow_filter_ne _ _)]
  simp [findRow]

lemma rowOf_register_other (s : RegistryState) (r : DataRecord) (now : String)
    (v : String) (hv : v ≠ r.uid) :
    rowOf (register s r now) v = rowOf s v := by
  simp only [register, rowOf, insertOrReplace, recordRow_uid]
  rw [findRow_append_general, findRow_filter_other _ _ _ hv]
  cases hfr : findRow s.records v with
  | some r' => rfl
  | none =>
      have hne : r.uid ≠ v := fun h => hv h.symm
      simp [findRow, hne]

/-! ## Claims -/

/-- C3: `register` stores exactly the caller-supplied row — `version`
included and not auto-incremented — and after reading the record back with
`get`, registering the identical copy leaves the stored row unchanged. -/
theorem c3_register_get_register_idempotent (s : RegistryState) (r : DataRecord)
    (now now2 : String) (r' : DataRecord)
    (h : get (register s r now) r.uid = some r') :
    rowOf (register s r now) r.uid = some (recordRow r)
    ∧ (recordRow r).version = r.version
    ∧ rowOf (register (register s r now) r' now2) r.uid
        = rowOf (register s r now) r.uid := by
  have h1 := rowOf_register_self s r now
  refine ⟨h1, rfl, ?_⟩
  simp only [get, h1, Option.some.injEq] at h
  rw [h1]
  rw [← h]
  exact rowOf_register_self (register s r now) _ now2

theorem c3_witness :
    get (register w3s w3r "t1") w3r.uid = some w3r
    ∧ (rowOf (register w3s w3r "t1") w3r.uid = some (recordRow w3r)
       ∧ (recordRow w3r).version = w3r.version
       ∧ rowOf (register (register w3s w3r "t1") w3r "t2") w3r.uid
           = rowOf (register w3s w3r "t1") w3r.uid) :=
  ⟨by decide, c3_register_get_register_idempotent w3s w3r "t1" "t2" w3r (by decide)⟩

/-- C5: `delete uid` removes the record row for `uid`, removes exactly the
lineage edges in which `uid` appears as parent or child, appends exactly one
audit entry, and leaves every other record row untouched. -/
theorem c5_delete_spec (s : RegistryState) (uid v now : String) (hv : v ≠ uid) :
    rowOf (delete s uid now) uid = none
    ∧ (∀ e, e ∈ (delete s uid now).lineage ↔
         (e ∈ s.lineage ∧ e.parent_uid ≠ uid ∧ e.child_uid ≠ uid))
    ∧ (delete s uid now).audit = s.audit ++ [deleteAudit uid now]
    ∧ rowOf (delete s uid now) v = rowOf s v := by
  refine ⟨findRow_filter_ne _ _, ?_, rfl, findRow_filter_other _ _ _ hv⟩
  intro e
  simp [delete, List.mem_filter, not_or, and_assoc]

lemma getDescendants_cyc_none :
    ∀ fuel, getDescendants fuel cycEdges "u" = none
      ∧ getDescendants fuel cycEdges "c1" = none := by
  intro fuel
  induction fuel with
  | zero => exact ⟨rfl, rfl⟩
  | succ f ih =>
      constructor
      · show getDescendants (f + 1) cycEdges "u" = none
        simp only [getDescendants]
        have hc : ((cycEdges.filter (fun e => e.parent_uid == "u")).map
            (fun e => e.child_uid)) = ["c1"] := rfl
        rw [hc]
        simp [ih.2]
      · show getDescendants (f + 1) cycEdges "c1" = none
        simp only [getDescendants]
        have hc : ((cycEdges.filter (fun e => e.parent_uid == "c1")).map
            (fun e => e.child_uid)) = ["u"] := rfl
        rw [hc]
        simp [ih.1]

/-- C1 (code bug): the spec requires `mark_stale` to terminate with each
reachable record set stale exactly once even on a cyclic lineage, via a
visited-set guard.  `_get_descendants` has no visited set: on the cycle
`u → c1 → u` the recursive walk fails to complete within ANY recursion
depth, so `mark_stale` never terminates (concretely, Python raises
`RecursionError` once the interpreter stack limit is hit, and the
transaction rolls back having marked nothing). -/
theorem c1_mark_stale_diverges_on_cycle :
    ∀ fuel now, mark_stale fuel cycState "u" now = none := by
  intro fuel now
  have hl : cycState.lineage = cycEdges := rfl
  simp only [mark_stale, hl, (getDescendants_cyc_none fuel).1]

/-- C4 (code bug): evaluating the supervisor on the interleaving above.
After `stop()` the listener is down and disabled, the trace contains no
`start()`/`restart()`, yet the final state has a NEW listener (generation 1)
bound while `enabled` is still false — the supervisor restarted the
listener after `stop()` was called. -/
theorem c4_stop_during_backoff_still_rebinds :
    c4Trace.contains SrvLabel.stopServer = true
    ∧ c4Trace.contains SrvLabel.startServer = false
    ∧ c4Trace.contains SrvLabel.restartServer = false
    ∧ (srvRun srvInit (c4Trace.take 10)).shared.enabled = false
    ∧ (srvRun srvInit (c4Trace.take 10)).shared.serverBound = false
    ∧ (srvRun srvInit c4Trace).shared.enabled = false
    ∧ (srvRun srvInit c4Trace).shared.serverBound = true
    ∧ (srvRun srvInit c4Trace).shared.serverThread = some 1 := by
  decide

theorem c5_witness :
    (("b" : String) ≠ "a")
    ∧ (rowOf (delete w5s "a" "t1") "a" = none
       ∧ (∀ e, e ∈ (delete w5s "a" "t1").lineage ↔
            (e ∈ w5s.lineage ∧ e.parent_uid ≠ "a" ∧ e.child_uid ≠ "a"))
       ∧ (delete w5s "a" "t1").audit = w5s.audit ++ [deleteAudit "a" "t1"]
       ∧ rowOf (delete w5s "a" "t1") "b" = rowOf w5s "b") :=
  ⟨by decide, c5_delete_spec w5s "a" "b" "t1" (by decide)⟩

lemma mem_dropLast_cons {α : Type _} (a : α) (l : List α) (x : α)
    (hx : x ∈ l.dropLast) : x ∈ (a :: l).dropLast := by
  cases l with
  | nil => cases hx
  | cons b t =>
      simp only [List.dropLast] at hx ⊢
      exact List.mem_cons_of_mem _ hx

/-- If no statement before the last is a `commit`, a failing transaction
leaves the committed database untouched. -/
lemma runTxn_error_of_commit_last (failsAt : Nat → Bool) :
    ∀ (stmts : List RegStmt), (∀ st ∈ stmts.dropLast, st ≠ RegStmt.commit) →
      ∀ committed pending i db,
        runTxn committed pending failsAt i stmts = .error db → db = committed := by
  intro stmts
  induction stmts with
  | nil =>
      intro _ c p i db h
      simp [runTxn] at h
  | cons stmt rest ih =>
      intro hnc c p i db h
      simp only [runTxn] at h
      by_cases hf : failsAt i = true
      · rw [if_pos hf] at h
        exact (Except.error.inj h).symm
      · rw [if_neg hf] at h
        have hrest : ∀ st ∈ rest.dropLast, st ≠ RegStmt.commit :=
          fun st hst => hnc st (mem_dropLast_cons _ _ _ hst)
        cases stmt with
        | commit =>
            cases rest with
            | nil => simp [runTxn] at h
            | cons r2 t2 =>
                exact absurd rfl (hnc RegStmt.commit (by simp [List.dropLast]))
        | replaceRow row => exact ih hrest c _ _ db h
        | deleteParentEdges uid => exact ih hrest c _ _ db h
        | insertEdge p2 c2 n2 => exact ih hrest c _ _ db h

lemma register_script_commit_last (r : DataRecord) (now : String) :
    ∀ st ∈ (register_script r now).dropLast, st ≠ RegStmt.commit := by
  intro st hst heq
  subst heq
  have hsplit : register_script r now
      = (RegStmt.replaceRow (recordRow r) :: RegStmt.deleteParentEdges r.uid ::
          r.parent_uids.map (fun p => RegStmt.insertEdge p r.uid now))
        ++ [RegStmt.commit] := by
    simp [register_script]
  rw [hsplit, List.dropLast_concat] at hst
  simp at hst

/-- A failure-free transaction over the edge-insert tail followed by the
final `commit` publishes exactly the folded lineage. -/
lemma runTxn_edges (uidr now : String) :
    ∀ (ps : List String) (committed pending : RegistryState) (i : Nat),
      runTxn committed pending (fun _ => false) i
          (ps.map (fun p => RegStmt.insertEdge p uidr now) ++ [RegStmt.commit])
        = .ok (edgesFolded pending ps uidr now, edgesFolded pending ps uidr now) := by
  intro ps
  induction ps with
  | nil => intro c p i; simp [runTxn, edgesFolded]
  | cons q qs ih =>
      intro c p i
      simp only [List.map_cons, List.cons_append, runTxn]
      exact ih c _ (i + 1)

/-- C10: if `register` raises partway through its transaction (any
statement, in particular a lineage-edge insert, failing before the final
`commit`), the caller observes the records and lineage tables exactly as
they were before the call — and the failure-free run commits precisely the
state `register` produces. -/
theorem c10_register_atomic (s : RegistryState) (r : DataRecord) (now : String)
    (failsAt : Nat → Bool) (db : RegistryState)
    (herr : register_run s r now failsAt = .error db) :
    db = s ∧ register_run s r now (fun _ => false) = .ok (register s r now) := by
  constructor
  · unfold register_run at herr
    cases hrun : runTxn s s failsAt 0 (register_script r now) with
    | error db2 =>
        rw [hrun] at herr
        have hdb2 := runTxn_error_of_commit_last failsAt _
          (register_script_commit_last r now) s s 0 db2 hrun
        rw [← (Except.error.inj herr)]
        exact hdb2
    | ok pr =>
        rw [hrun] at herr
        simp at herr
  · have h2 : runTxn s s (fun _ => false) 0 (register_script r now)
        = .ok (edgesFolded (applyStmt (applyStmt s (RegStmt.replaceRow (recordRow r)))
                  (RegStmt.deleteParentEdges r.uid)) r.parent_uids r.uid now,
               edgesFolded (applyStmt (applyStmt s (RegStmt.replaceRow (recordRow r)))
                  (RegStmt.deleteParentEdges r.uid)) r.parent_uids r.uid now) := by
      simp only [register_script, runTxn]
      exact runTxn_edges r.uid now r.parent_uids s _ 2
    unfold register_run
    rw [h2]
    rfl

theorem c10_witness :
    register_run w3s w10r "t1" w10f = Except.error w3s
    ∧ (w3s = w3s
       ∧ register_run w3s w10r "t1" (fun _ => false)
           = Except.ok (register w3s w10r "t1")) :=
  ⟨rfl, c10_register_atomic w3s w10r "t1" w10f w3s rfl⟩

@[simp]

lemma updatedRecord_uid (ex : DataRecord) (stSize : Nat) (hashVal : Option String)
    (vstatus : DataStatus) (vmsgs : List String) (now : String) :
    (updatedRecord ex stSize hashVal vstatus vmsgs now).uid = ex.uid := rfl

@[simp]

lemma updatedRecord_version (ex : DataRecord) (stSize : Nat) (hashVal : Option String)
    (vstatus : DataStatus) (vmsgs : List String) (now : String) :
    (updatedRecord ex stSize hashVal vstatus vmsgs now).version = ex.version + 1 := rfl

lemma findRow_cons (r : RecordRow) (t : List RecordRow) (v : String) :
    findRow (r :: t) v = if r.uid == v then some r else findRow t v := rfl

lemma setStale_cons (r : RecordRow) (t : List RecordRow) (u : String) :
    setStale (r :: t) u
      = (if r.uid == u then { r with status := DataStatus.stale } else r)
        :: setStale t u := rfl

lemma findRow_setStale (recs : List RecordRow) (u v : String) :
    findRow (setStale recs u) v =
      (findRow recs v).map
        (fun r => if v = u then { r with status := DataStatus.stale } else r) := by
  induction recs with
  | nil => rfl
  | cons r t ih =>
      simp only [setStale_cons, findRow_cons]
      by_cases hrv : r.uid = v
      · by_cases hru : r.uid = u
        · have hvu : v = u := by rw [← hrv, hru]
          simp [hrv, hru, hvu]
        · have hvu : ¬v = u := by rw [← hrv]; exact hru
          simp [hrv, hru, hvu]
      · by_cases hru : r.uid = u
        · have hvu : ¬u = v := by rw [← hru]; exact hrv
          simp [hrv, hru, hvu, ih]
        · simp [hrv, hru, ih]

lemma findRow_foldl_setStale (cl : List String) :
    ∀ (recs : List RecordRow) (v : String),
      findRow (cl.foldl setStale recs) v =
        (findRow recs v).map
          (fun r => if v ∈ cl then { r with status := DataStatus.stale } else r) := by
  induction cl with
  | nil =>
      intro recs v
      simp
  | cons c rest ih =>
      intro recs v
      rw [List.foldl_cons, ih, findRow_setStale]
      cases hfr : findRow recs v with
      | none => rfl
      | some r =>
          by_cases hvc : v = c
          · by_cases hvr : v ∈ rest <;> simp [hvc, hvr]
          · by_cases hvr : v ∈ rest <;> simp [hvc, hvr]

lemma mark_stale_some {fuel : Nat} {st : RegistryState} {u now : String}
    {st2 : RegistryState} (h : mark_stale fuel st u now = some st2) :
    ∃ ds, getDescendants fuel st.lineage u = some ds
      ∧ st2.records = ds.foldl setStale (setStale st.records u)
      ∧ st2.lineage = st.lineage
      ∧ st2.audit = st.audit ++ [markStaleAudit u ds.length now] := by
  unfold mark_stale at h
  cases hds : getDescendants fuel st.lineage u with
  | none => rw [hds] at h; cases h
  | some ds =>
      rw [hds] at h
      injection h with h'
      subst h'
      exact ⟨ds, rfl, rfl, rfl, rfl⟩

lemma foldMarkStale_some :
    ∀ (uids : List String) (fuel : Nat) (st st2 : RegistryState) (now : String),
      foldMarkStale fuel st uids now = some st2 →
      ∃ cl, staleClosure fuel st.lineage uids = some cl
        ∧ st2.records = cl.foldl setStale st.records
        ∧ st2.lineage = st.lineage
        ∧ st2.audit.length = st.audit.length + uids.length := by
  intro uids
  induction uids with
  | nil =>
      intro fuel st st2 now h
      simp only [foldMarkStale, Option.some.injEq] at h
      subst h
      exact ⟨[], rfl, rfl, rfl, by simp⟩
  | cons u rest ih =>
      intro fuel st st2 now h
      simp only [foldMarkStale] at h
      cases hm : mark_stale fuel st u now with
      | none => rw [hm] at h; cases h
      | some s1 =>
          rw [hm] at h
          obtain ⟨cl', hcl', hrec', hlin', haud'⟩ := ih fuel s1 st2 now h
          obtain ⟨ds, hds, hsrec, hslin, hsaud⟩ := mark_stale_some hm
          rw [hslin] at hcl'
          refine ⟨u :: (ds ++ cl'), ?_, ?_, ?_, ?_⟩
          · simp only [staleClosure]
            rw [hds, hcl']
            rfl
          · rw [hrec', hsrec]
            simp [List.foldl_append]
          · rw [hlin', hslin]
          · rw [haud', hsaud]
            simp [List.length_append]
            omega

lemma staleClosure_mem_of_mem :
    ∀ (uids : List String) (fuel : Nat) (lin : List Edge) (cl : List String),
      staleClosure fuel lin uids = some cl → ∀ u ∈ uids, u ∈ cl := by
  intro uids
  induction uids with
  | nil => intro _ _ _ _ u hu; cases hu
  | cons q rest ih =>
      intro fuel lin cl h u hu
      simp only [staleClosure] at h
      cases hds : getDescendants fuel lin q with
      | none => rw [hds] at h; cases h
      | some ds =>
          cases hcl : staleClosure fuel lin rest with
          | none => rw [hds, hcl] at h; cases h
          | some cl' =>
              rw [hds, hcl] at h
              injection h with h'
              subst h'
              rcases List.mem_cons.mp hu with rfl | hu2
              · exact List.mem_cons_self _ _
              · exact List.mem_cons_of_mem _
                  (List.mem_append_right _ (ih fuel lin cl' hcl u hu2))

/-- Core characterization of the changed branch of the scan loop: the
result state is the register of the updated record with the stale closure
of the existing children folded over it, one `updated` is counted, and the
audit grows by one register entry plus one mark-stale entry per child. -/
lemma scan_path_changed_core
    (fuel : Nat) (s : RegistryState) (rel : String) (stSize : Nat)
    (hashVal : Option String) (category : DataCategory) (vstatus : DataStatus)
    (vmsgs : List String) (freshUid now : String) (counts : ScanCounts)
    (ex : DataRecord) (s' : RegistryState) (counts' : ScanCounts)
    (hex : get_by_path s rel = some ex)
    (hch : (!(strEqOptStr ex.hash_sha256 hashVal) || !(ex.size == stSize)) = true)
    (hrun : scan_path fuel s rel stSize hashVal category vstatus vmsgs freshUid now counts
              = some (s', counts')) :
    ∃ cl, staleClosure fuel s'.lineage ex.child_uids = some cl
      ∧ s'.records = cl.foldl setStale
          (register s (updatedRecord ex stSize hashVal vstatus vmsgs now) now).records
      ∧ s'.lineage
          = (register s (updatedRecord ex stSize hashVal vstatus vmsgs now) now).lineage
      ∧ s'.audit.length = s.audit.length + 1 + ex.child_uids.length
      ∧ counts' = { counts with updated := counts.updated + 1 } := by
  simp only [scan_path, hex] at hrun
  rw [if_pos hch] at hrun
  cases hfm : foldMarkStale fuel
      (register s (updatedRecord ex stSize hashVal vstatus vmsgs now) now)
      ex.child_uids now with
  | none => rw [hfm] at hrun; cases hrun
  | some s2 =>
      rw [hfm] at hrun
      simp only [Option.some.injEq, Prod.mk.injEq] at hrun
      obtain ⟨h1, h2⟩ := hrun
      subst h1
      subst h2
      obtain ⟨cl, hcl, hrec, hlin, haud⟩ :=
        foldMarkStale_some ex.child_uids fuel _ s2 now hfm
      refine ⟨cl, ?_, hrec, hlin, ?_, rfl⟩
      · rw [hlin]; exact hcl
      · have hreg : (register s (updatedRecord ex stSize hashVal vstatus vmsgs now)
            now).audit
            = s.audit
              ++ [registerAudit (updatedRecord ex stSize hashVal vstatus vmsgs now) now] :=
          rfl
        rw [haud, hreg]
        simp [List.length_append]

/-- A row looked up after the stale-closure fold, for a uid in the closure,
has status `stale`. -/
lemma stale_after_fold (cl : List String) (recs : List RecordRow) (v : String)
    (hv : v ∈ cl) (row : RecordRow)
    (hrow : findRow (cl.foldl setStale recs) v = some row) :
    row.status = DataStatus.stale := by
  rw [findRow_foldl_setStale] at hrow
  cases hfb : findRow recs v with
  | none => rw [hfb] at hrow; cases hrow
  | some r0 =>
      rw [hfb] at hrow
      have h3 : (if v ∈ cl then { r0 with status := DataStatus.stale } else r0) = row :=
        Option.some.inj hrow
      rw [if_pos hv] at h3
      rw [← h3]

/-- The stale-closure fold changes no field other than `status`. -/
lemma fold_setStale_preserves (cl : List String) (recs : List RecordRow) (v : String) :
    (findRow (cl.foldl setStale recs) v).map (fun r => (r.version, r.hash_sha256))
      = (findRow recs v).map (fun r => (r.version, r.hash_sha256)) := by
  rw [findRow_foldl_setStale]
  cases findRow recs v with
  | none => rfl
  | some r0 => by_cases hv : v ∈ cl <;> simp [hv]

/-- C2: when a scan finds a tracked file whose digest or size differs from
the record, the stored row becomes exactly the caller-updated record — so
`version` is bumped by one and the record's own status is the validation
result, not a forced `stale` — the pass counts one `updated`, exactly one
register-audit plus one mark-stale-audit per existing child is appended,
and every existing child of the record that still has a row is left with
status `stale`.  (The hypothesis `hnc` excludes the record reaching itself
through its own children, i.e. the cyclic case the data model calls
ill-formed; claim C1 covers cycles.) -/
theorem c2_scan_changed_updates_and_propagates
    (fuel : Nat) (s : RegistryState) (rel : String) (stSize : Nat)
    (hashVal : Option String) (category : DataCategory) (vstatus : DataStatus)
    (vmsgs : List String) (freshUid now : String) (counts : ScanCounts)
    (ex : DataRecord) (s' : RegistryState) (counts' : ScanCounts)
    (hex : get_by_path s rel = some ex)
    (hch : (!(strEqOptStr ex.hash_sha256 hashVal) || !(ex.size == stSize)) = true)
    (hrun : scan_path fuel s rel stSize hashVal category vstatus vmsgs freshUid now counts
              = some (s', counts'))
    (hnc : ∀ cl, staleClosure fuel s'.lineage ex.child_uids = some cl → ex.uid ∉ cl) :
    rowOf s' ex.uid
        = some (recordRow (updatedRecord ex stSize hashVal vstatus vmsgs now))
    ∧ (rowOf s' ex.uid).map (fun row => row.version) = some (ex.version + 1)
    ∧ (rowOf s' ex.uid).map (fun row => row.status) = some vstatus
    ∧ (∀ c ∈ ex.child_uids, ∀ row, rowOf s' c = some row → row.status = DataStatus.stale)
    ∧ counts' = { counts with updated := counts.updated + 1 }
    ∧ s'.audit.length = s.audit.length + 1 + ex.child_uids.length := by
  obtain ⟨cl, hcl, hrec, hlin, haud, hcnt⟩ :=
    scan_path_changed_core fuel s rel stSize hashVal category vstatus vmsgs freshUid
      now counts ex s' counts' hex hch hrun
  have hnotin : ex.uid ∉ cl := hnc cl hcl
  have hbase : findRow
      (register s (updatedRecord ex stSize hashVal vstatus vmsgs now) now).records
      ex.uid
      = some (recordRow (updatedRecord ex stSize hashVal vstatus vmsgs now)) :=
    rowOf_register_self s (updatedRecord ex stSize hashVal vstatus vmsgs now) now
  have hfind : rowOf s' ex.uid
      = some (recordRow (updatedRecord ex stSize hashVal vstatus vmsgs now)) := by
    show findRow s'.records ex.uid = _
    rw [hrec, findRow_foldl_setStale, hbase]
    simp [hnotin]
  refine ⟨hfind, ?_, ?_, ?_, hcnt, haud⟩
  · rw [hfind]; rfl
  · rw [hfind]; rfl
  · intro c hc row hrow
    have hcin : c ∈ cl := by
      refine staleClosure_mem_of_mem ex.child_uids fuel s'.lineage cl hcl c hc
    have hrow' : findRow s'.records c = some row := hrow
    rw [hrec] at hrow'
    exact stale_after_fold cl _ c hcin row hrow'

/-- C9: for an already-tracked file larger than the hash cap, a re-scan
observing identical size recomputes the digest as `none`, which never
compares equal to the stored empty-string digest, so the pass counts the
file `updated` (never `unchanged`), bumps its version, stores `""` again
(perpetuating the loop on every later pass), and marks each surviving
child row `stale`. -/
theorem c9_oversized_tracked_file_always_updated
    (maxMb fuel : Nat) (f : FSFile) (s : RegistryState) (rel : String)
    (category : DataCategory) (vstatus : DataStatus) (vmsgs : List String)
    (freshUid now : String) (counts : ScanCounts)
    (ex : DataRecord) (s' : RegistryState) (counts' : ScanCounts)
    (hbig : f.size > maxMb * 1024 * 1024)
    (hex : get_by_path s rel = some ex)
    (hh : ex.hash_sha256 = "")
    (_hs : ex.size = f.size)
    (hrun : scan_path fuel s rel f.size (hash_file maxMb f) category vstatus vmsgs
        freshUid now counts = some (s', counts')) :
    hash_file maxMb f = none
    ∧ counts' = { counts with updated := counts.updated + 1 }
    ∧ (rowOf s' ex.uid).map (fun row => row.version) = some (ex.version + 1)
    ∧ (rowOf s' ex.uid).map (fun row => row.hash_sha256) = some ""
    ∧ (∀ c ∈ ex.child_uids, ∀ row, rowOf s' c = some row
        → row.status = DataStatus.stale) := by
  have hval : hash_file maxMb f = none := by
    unfold hash_file
    rw [if_pos hbig]
  have hch : (!(strEqOptStr ex.hash_sha256 (hash_file maxMb f))
      || !(ex.size == f.size)) = true := by
    rw [hval, hh]
    rfl
  obtain ⟨cl, hcl, hrec, hlin, haud, hcnt⟩ :=
    scan_path_changed_core fuel s rel f.size (hash_file maxMb f) category vstatus
      vmsgs freshUid now counts ex s' counts' hex hch hrun
  have hbase : findRow
      (register s (updatedRecord ex f.size (hash_file maxMb f) vstatus vmsgs now)
        now).records ex.uid
      = some (recordRow (updatedRecord ex f.size (hash_file maxMb f) vstatus vmsgs now)) :=
    rowOf_register_self s _ now
  have hpres := fold_setStale_preserves cl
    (register s (updatedRecord ex f.size (hash_file maxMb f) vstatus vmsgs now)
      now).records ex.uid
  rw [hbase] at hpres
  cases hfr : findRow
      (cl.foldl setStale
        (register s (updatedRecord ex f.size (hash_file maxMb f) vstatus vmsgs now)
          now).records) ex.uid with
  | none => rw [hfr] at hpres; cases hpres
  | some r1 =>
      rw [hfr] at hpres
      have hpair : (r1.version, r1.hash_sha256)
          = ((recordRow (updatedRecord ex f.size (hash_file maxMb f) vstatus vmsgs
              now)).version,
             (recordRow (updatedRecord ex f.size (hash_file maxMb f) vstatus vmsgs
              now)).hash_sha256) :=
        Option.some.inj hpres
      have hv1 : r1.version = ex.version + 1 := by
        have h := congrArg Prod.fst hpair
        simpa using h
      have hh1 : r1.hash_sha256 = "" := by
        have h := congrArg Prod.snd hpair
        rw [hval] at h
        simpa [recordRow, updatedRecord] using h
      have hrowex : rowOf s' ex.uid = some r1 := by
        show findRow s'.records ex.uid = some r1
        rw [hrec]
        exact hfr
      refine ⟨hval, hcnt, ?_, ?_, ?_⟩
      · rw [hrowex]
        simp [hv1]
      · rw [hrowex]
        simp [hh1]
      · intro c hc row hrow
        have hcin : c ∈ cl :=
          staleClosure_mem_of_mem ex.child_uids fuel s'.lineage cl hcl c hc
        have hrow' : findRow s'.records c = some row := hrow
        rw [hrec] at hrow'
        exact stale_after_fold cl _ c hcin row hrow'

theorem c2_witness :
    get_by_path w2s "f.txt" = some w2ex
    ∧ ((!(strEqOptStr w2ex.hash_sha256 (some "h1")) || !(w2ex.size == 1)) = true)
    ∧ scan_path 5 w2s "f.txt" 1 (some "h1") DataCategory.source DataStatus.valid []
        "u9" "t1" zeroCounts = some (w2sAfter, oneUpdated)
    ∧ (rowOf w2sAfter w2ex.uid).map (fun row => row.version) = some (w2ex.version + 1)
    ∧ (rowOf w2sAfter w2ex.uid).map (fun row => row.status) = some DataStatus.valid
    ∧ oneUpdated = { zeroCounts with updated := zeroCounts.updated + 1 } := by
  have happ := c2_scan_changed_updates_and_propagates 5 w2s "f.txt" 1 (some "h1")
    DataCategory.source DataStatus.valid [] "u9" "t1" zeroCounts w2ex w2sAfter
    oneUpdated (by decide) (by decide) (by decide)
    (by
      intro cl h
      have hh : staleClosure 5 w2sAfter.lineage w2ex.child_uids = some ["c"] := rfl
      rw [hh] at h
      have hcl : cl = ["c"] := (Option.some.inj h).symm
      subst hcl
      decide)
  exact ⟨by decide, by decide, by decide, happ.2.1, happ.2.2.1, happ.2.2.2.2.1⟩

theorem c9_witness :
    (0 : Nat) * 1024 * 1024 < w9f.size
    ∧ get_by_path w9s "big.bin" = some w9ex
    ∧ w9ex.hash_sha256 = ""
    ∧ w9ex.size = w9f.size
    ∧ scan_path 5 w9s "big.bin" w9f.size (hash_file 0 w9f) DataCategory.source
        DataStatus.valid [] "u9" "t1" zeroCounts = some (w9sAfter, oneUpdated)
    ∧ hash_file 0 w9f = none
    ∧ oneUpdated = { zeroCounts with updated := zeroCounts.updated + 1 }
    ∧ (rowOf w9sAfter w9ex.uid).map (fun row => row.version) = some (w9ex.version + 1)
    ∧ (rowOf w9sAfter w9ex.uid).map (fun row => row.hash_sha256) = some "" := by
  have happ := c9_oversized_tracked_file_always_updated 0 5 w9f w9s "big.bin"
    DataCategory.source DataStatus.valid [] "u9" "t1" zeroCounts w9ex w9sAfter
    oneUpdated (by decide) (by decide) (by decide) (by decide) (by decide)
  exact ⟨by decide, by decide, by decide, by decide, by decide,
    happ.1, happ.2.1, happ.2.2.1, happ.2.2.2.1⟩

/-- C6: for a file over the hash cap the digest is `none`, and a scan that
does not yet track the path still succeeds: it counts one `added` (no
error) and registers a row carrying the file's size and the scan
timestamps, with an empty digest and the validation status. -/
theorem c6_oversized_new_file_registered
    (maxMb fuel : Nat) (f : FSFile) (s : RegistryState) (rel : String)
    (category : DataCategory) (vstatus : DataStatus) (vmsgs : List String)
    (freshUid now : String) (counts : ScanCounts)
    (hbig : f.size > maxMb * 1024 * 1024)
    (habs : get_by_path s rel = none) :
    hash_file maxMb f = none
    ∧ scan_path fuel s rel f.size (hash_file maxMb f) category vstatus vmsgs freshUid
        now counts
      = some (register s (freshRecord rel f.size (hash_file maxMb f) category vstatus
            vmsgs freshUid now) now,
          { counts with added := counts.added + 1 })
    ∧ (rowOf (register s (freshRecord rel f.size (hash_file maxMb f) category vstatus
          vmsgs freshUid now) now) freshUid).map
        (fun row => (row.size, row.hash_sha256, row.created_at, row.modified_at,
          row.status))
      = some (f.size, "", now, now, vstatus) := by
  have hval : hash_file maxMb f = none := by
    unfold hash_file
    rw [if_pos hbig]
  refine ⟨hval, ?_, ?_⟩
  · simp only [scan_path, habs]
  · have hbase := rowOf_register_self s
      (freshRecord rel f.size (hash_file maxMb f) category vstatus vmsgs freshUid now) now
    have huid : (freshRecord rel f.size (hash_file maxMb f) category vstatus vmsgs
        freshUid now).uid = freshUid := rfl
    rw [huid] at hbase
    rw [hbase, hval]
    simp [recordRow, freshRecord]

theorem c6_witness :
    (0 : Nat) * 1024 * 1024 < w9f.size
    ∧ get_by_path w3s "new.bin" = none
    ∧ (hash_file 0 w9f = none
       ∧ scan_path 5 w3s "new.bin" w9f.size (hash_file 0 w9f) DataCategory.source
           DataStatus.valid [] "u7" "t1" zeroCounts
         = some (register w3s (freshRecord "new.bin" w9f.size (hash_file 0 w9f)
               DataCategory.source DataStatus.valid [] "u7" "t1") "t1",
             { zeroCounts with added := zeroCounts.added + 1 })
       ∧ (rowOf (register w3s (freshRecord "new.bin" w9f.size (hash_file 0 w9f)
             DataCategory.source DataStatus.valid [] "u7" "t1") "t1") "u7").map
           (fun row => (row.size, row.hash_sha256, row.created_at, row.modified_at,
             row.status))
         = some (w9f.size, "", "t1", "t1", DataStatus.valid)) :=
  ⟨by decide, by decide,
   c6_oversized_new_file_registered 0 5 w9f w3s "new.bin" DataCategory.source
     DataStatus.valid [] "u7" "t1" zeroCounts (by decide) (by decide)⟩

lemma delete_records (s : RegistryState) (u now : String) :
    (delete s u now).records = s.records.filter (fun r => !(r.uid == u)) := rfl

lemma removePass_nil_seen :
    ∀ (rows : List RecordRow) (s : RegistryState) (counts : ScanCounts) (now : String),
      (removePass s counts rows [] now).1.records
        = s.records.filter (fun r => rows.all (fun q => !(r.uid == q.uid))) := by
  intro rows
  induction rows with
  | nil =>
      intro s c now
      simp [removePass]
  | cons q rest ih =>
      intro s c now
      have hstep : removePass s c (q :: rest) [] now
          = removePass (delete s q.uid now)
              { c with removed := c.removed + 1 } rest [] now := rfl
      rw [hstep, ih, delete_records, List.filter_filter]
      refine List.filter_congr ?_
      intro a _
      simp [Bool.and_comm]

/-- C7: scanning an empty file list twice in succession always yields the
all-zero counters `{added 0, updated 0, unchanged 0, removed 0, errors 0}`
on the second pass, whatever the starting registry contents (as long as the
registry holds no more rows than the removal query's `limit=100000`: the
first pass then removes every tracked record and the second finds nothing
to do). -/
theorem c7_scan_empty_root_twice
    (fuel fuel2 : Nat) (s : RegistryState) (fresh fresh2 : Nat → String)
    (now now2 : String) (h : s.records.length ≤ 100000) :
    ∃ s1 c1, scan fuel s [] fresh now = some (s1, c1)
      ∧ scan fuel2 s1 [] fresh2 now2 = some (s1, zeroCounts) := by
  refine ⟨(removePass s zeroCounts (s.records.take 100000) [] now).1,
          (removePass s zeroCounts (s.records.take 100000) [] now).2, ?_, ?_⟩
  · rfl
  · have hrec1 : (removePass s zeroCounts (s.records.take 100000) [] now).1.records
        = [] := by
      rw [removePass_nil_seen, List.take_of_length_le h]
      refine List.filter_eq_nil_iff.mpr ?_
      intro a ha hall
      have := List.all_eq_true.mp hall a ha
      simp at this
    show scan fuel2 _ [] fresh2 now2 = _
    simp only [scan, scanLoop, List.map_nil]
    rw [hrec1]
    rfl

theorem c7_witness :
    w5s.records.length ≤ 100000
    ∧ (∃ s1 c1, scan 3 w5s [] (fun _ => "u") "t1" = some (s1, c1)
        ∧ scan 3 s1 [] (fun _ => "u") "t2" = some (s1, zeroCounts)) :=
  ⟨by decide,
   c7_scan_empty_root_twice 3 3 w5s (fun _ => "u") (fun _ => "u") "t1" "t2" (by decide)⟩

lemma bigRow_uid_inj (i j : Nat) (h : (bigRow i).uid = (bigRow j).uid) : i = j := by
  have h2 : List.replicate i 'u' = List.replicate j 'u' := congrArg String.data h
  have h3 := congrArg List.length h2
  simpa using h3

lemma bigRecords_split :
    (List.range 100001).map bigRow
      = (List.range 100000).map bigRow ++ [bigRow 100000] := by
  rw [show (100001 : Nat) = 100000 + 1 from rfl, List.range_succ]
  simp

lemma bigTake :
    ((List.range 100001).map bigRow).take 100000 = (List.range 100000).map bigRow := by
  rw [bigRecords_split]
  have hlen : ((List.range 100000).map bigRow).length = 100000 := by simp
  exact List.take_left' hlen

lemma c7bigFirst_records : c7bigFirst.1.records = [bigRow 100000] := by
  unfold c7bigFirst
  rw [removePass_nil_seen]
  have hbr : bigState.records = (List.range 100001).map bigRow := by
    simp only [bigState]
  rw [hbr, bigTake, bigRecords_split, List.filter_append]
  have h1 : ((List.range 100000).map bigRow).filter
      (fun r => ((List.range 100000).map bigRow).all (fun q => !(r.uid == q.uid)))
      = [] := by
    refine List.filter_eq_nil_iff.mpr ?_
    intro r hr hPr
    obtain ⟨i, hi, rfl⟩ := List.mem_map.mp hr
    have hall := List.all_eq_true.mp hPr (bigRow i) (List.mem_map_of_mem _ hi)
    simp at hall
  have h2 : ([bigRow 100000] : List RecordRow).filter
      (fun r => ((List.range 100000).map bigRow).all (fun q => !(r.uid == q.uid)))
      = [bigRow 100000] := by
    have hP : ((List.range 100000).map bigRow).all
        (fun q => !((bigRow 100000).uid == q.uid)) = true := by
      refine List.all_eq_true.mpr ?_
      intro q hq
      obtain ⟨j, hj, rfl⟩ := List.mem_map.mp hq
      have hj' : j < 100000 := List.mem_range.mp hj
      have hne : (bigRow 100000).uid ≠ (bigRow j).uid := by
        intro he
        have := bigRow_uid_inj _ _ he
        omega
      simp [hne]
    simp [List.filter_cons, hP]
  rw [h1, h2]
  simp

/-- C7 counterexample: on a registry tracking 100001 records — one more
than the removal phase's `query(limit=100000)` snapshot — scanning an
empty root twice does NOT yield all-zero counters on the second pass: the
first pass's snapshot misses one record, and the second pass removes the
leftover, counting `removed = 1`. -/
theorem c7_counterexample :
    scan 1 bigState [] (fun _ => "u") "t1" = some c7bigFirst
    ∧ (scan 1 c7bigFirst.1 [] (fun _ => "u") "t2").map (fun p => p.2)
        = some { added := 0, updated := 0, unchanged := 0, removed := 1, errors := 0 }
    ∧ ({ added := 0, updated := 0, unchanged := 0, removed := 1, errors := 0 } :
        ScanCounts) ≠ zeroCounts := by
  refine ⟨rfl, ?_, by decide⟩
  have hscan2 : scan 1 c7bigFirst.1 [] (fun _ => "u") "t2"
      = some (removePass c7bigFirst.1 zeroCounts (c7bigFirst.1.records.take 100000)
          [] "t2") := rfl
  rw [hscan2, c7bigFirst_records]
  rfl

lemma string_data_mk (l : List Char) : (String.mk l).data = l := rfl

lemma normColorChars_strip (l : List Char) :
    normColorChars (stripLeadingHashChars l) = normColorChars l := by
  cases l with
  | nil => rfl
  | cons c rest =>
      by_cases hc : c = '#'
      · subst hc
        have hup : Char.toUpper '#' = '#' := by decide
        simp [stripLeadingHashChars, normColorChars, hup]
      · simp [stripLeadingHashChars, hc]

/-- C8: the touch-zone color lookup returns the same result for any two
keys that are equal up to ASCII letter case and a leading `#` prefix. -/
theorem c8_color_lookup_insensitive (zones : List TouchZone) (k1 k2 : String)
    (h : asciiUpper (stripLeadingHash k1) = asciiUpper (stripLeadingHash k2)) :
    get_touch_zone_by_color zones k1 = get_touch_zone_by_color zones k2 := by
  have hl : (stripLeadingHashChars k1.data).map Char.toUpper
      = (stripLeadingHashChars k2.data).map Char.toUpper := by
    have h' := congrArg String.data h
    simpa [asciiUpper, stripLeadingHash, string_data_mk] using h'
  have hnorm : normColorPy k1 = normColorPy k2 := by
    unfold normColorPy
    rw [← normColorChars_strip k1.data, ← normColorChars_strip k2.data]
    unfold normColorChars
    rw [hl]
  unfold get_touch_zone_by_color
  rw [hnorm]

theorem c8_witness :
    asciiUpper (stripLeadingHash "#AABBCC") = asciiUpper (stripLeadingHash "aabbcc")
    ∧ get_touch_zone_by_color w8zones "#AABBCC"
        = get_touch_zone_by_color w8zones "aabbcc" :=
  ⟨by decide, c8_color_lookup_insensitive w8zones "#AABBCC" "aabbcc" (by decide)⟩

end F22
